import Mathlib

/-!
Verification of the text-layout core of the xoxo-video-api renderer
(`src/main.py`), as a shallow embedding.

Modelling choices:
* Python strings are `List Char`; `str.split()` is `pySplit`, `str.strip()`
  is `pyStrip`, `' '.join` is `joinSp`.
* A PIL font handle is a `Font`: an abstract width measure (`getlength`),
  vertical metrics (`getmetrics` = ascent/descent) and bounding-box rows
  (`getbbox`), all over `ℚ` (Python floats modelled exactly as rationals).
* `ImageFont.truetype` is an abstract resolver `ℕ → Option Font`;
  `none` models the `IOError`/`ValueError` raised path.
* Pixel quantities are `ℚ`; font sizes are `ℕ`.
-/

/-- Abstract font handle: the text-measurement capabilities the layout code
uses (`getlength`, `getmetrics`, `getbbox` rows 1 and 3). -/
structure Font where
  width : List Char → ℚ
  ascent : ℕ
  descent : ℕ
  bbox1 : List Char → ℚ
  bbox3 : List Char → ℚ

/-! Configuration constants from `CONFIG` in `src/main.py`. -/

def canvas_width : ℕ := 1080

def canvas_height : ℕ := 1920

def content_font_size_min : ℕ := 20

def content_font_size_max : ℕ := 40

def content_line_spacing_cfg : ℚ := 1/5

def max_content_width_cfg : ℚ := 980

def image_top_margin : ℕ := 30

def image_height_cfg : ℕ := 400

def spacing_image_title : ℕ := 40

def spacing_title_content : ℕ := 15

def spacing_content_postid : ℕ := 15

/-! Python `str.split()` : split on whitespace runs, dropping empty pieces. -/

/-- Accumulator-based model of Python `str.split()`; `cur` holds the current
word's characters in reverse. -/
def splitAux : List Char → List Char → List (List Char)
  | [], cur => if cur = [] then [] else [cur.reverse]
  | c :: cs, cur =>
    if c.isWhitespace then
      if cur = [] then splitAux cs [] else cur.reverse :: splitAux cs []
    else splitAux cs (c :: cur)

/-- Python `text.split()`. -/
def pySplit (s : List Char) : List (List Char) := splitAux s []

/-- Python `' '.join(words)`. -/
def joinSp : List (List Char) → List Char
  | [] => []
  | [w] => w
  | w :: ws => w ++ ' ' :: joinSp ws

/-- Python `s.strip()` (default whitespace stripping). -/
def pyStrip (s : List Char) : List Char :=
  ((s.dropWhile Char.isWhitespace).reverse.dropWhile Char.isWhitespace).reverse

/-- A word as produced by `split()`: nonempty and whitespace-free. -/
def CleanWord (w : List Char) : Prop :=
  w ≠ [] ∧ ∀ c ∈ w, c.isWhitespace = false

/-! The greedy word-wrap loop of `calculate_content_height`
(`src/main.py` lines 105-118): `cur` is `current_line` (a list of words),
and each emitted line is `' '.join` of a group of words. We keep the groups;
the emitted line strings are their `joinSp` images. -/

/-- The wrap loop of `calculate_content_height`, word-group form: returns the
list of `current_line` snapshots that the Python code joins and appends to
`lines`. -/
def wrapCalc (font : Font) (maxW : ℚ) : List (List Char) → List (List Char) → List (List (List Char))
  | [], cur => if cur = [] then [] else [cur]
  | w :: ws, cur =>
    if font.width (joinSp (cur ++ [w])) ≤ maxW then wrapCalc font maxW ws (cur ++ [w])
    else cur :: wrapCalc font maxW ws [w]

/-- The emitted line strings of the wrap in `calculate_content_height`. -/
def wrapLines (font : Font) (maxW : ℚ) (text : List Char) : List (List Char) :=
  (wrapCalc font maxW (pySplit text) []).map joinSp

/-! The greedy word-wrap loop of `draw_wrapped_text`
(`src/main.py` lines 151-164): the current line is a string, and the
tentative line is `f"{line} {word}".strip()`. -/

/-- The wrap loop of `draw_wrapped_text`: string-buffer form. -/
def wrapDraw (font : Font) (maxW : ℚ) : List (List Char) → List Char → List (List Char)
  | [], line => if line = [] then [] else [line]
  | w :: ws, line =>
    if font.width (pyStrip (line ++ ' ' :: w)) ≤ maxW then
      wrapDraw font maxW ws (pyStrip (line ++ ' ' :: w))
    else line :: wrapDraw font maxW ws w

/-! `calculate_content_height` (`src/main.py` lines 99-128). -/

/-- `calculate_content_height(content, font_size, max_width)`: resolves a font
(`none` = the raised `ValueError`), wraps, and totals line heights plus
inter-line spacing. -/
def calculate_content_height (resolve : ℕ → Option Font) (content : List Char)
    (font_size : ℕ) (max_width : ℚ) : Option ℚ :=
  match resolve font_size with
  | none => none
  | some font =>
    let lines := wrapCalc font max_width (pySplit content) []
    if lines.length = 0 then some 0
    else
      let line_height : ℚ := (font.ascent : ℚ) + (font.descent : ℚ)
      let line_spacing : ℚ := line_height * content_line_spacing_cfg
      some ((lines.length : ℚ) * line_height + ((lines.length : ℚ) - 1) * line_spacing)

/-! `find_optimal_font_size` (`src/main.py` lines 130-148): a `for _ in
range(10)` loop over `low`, `high`, `best_size`, modelled by fuel. -/

/-- The body of the bounded binary-search loop of `find_optimal_font_size`.
A failed height estimation (unresolvable font) propagates as `none`. -/
def findLoop (resolve : ℕ → Option Font) (content : List Char)
    (max_width max_height : ℚ) : ℕ → ℕ → ℕ → ℕ → Option ℕ
  | 0, _, _, best => some best
  | fuel+1, low, high, best =>
    if high < low then some best
    else
      match calculate_content_height resolve content ((low + high) / 2) max_width with
      | none => none
      | some h =>
        if h ≤ max_height then
          findLoop resolve content max_width max_height fuel ((low + high) / 2 + 1) high ((low + high) / 2)
        else
          findLoop resolve content max_width max_height fuel low ((low + high) / 2 - 1) best

/-- `find_optimal_font_size(content, max_width, max_height)`. -/
def find_optimal_font_size (resolve : ℕ → Option Font) (content : List Char)
    (max_width max_height : ℚ) : Option ℕ :=
  findLoop resolve content max_width max_height 10
    content_font_size_min content_font_size_max content_font_size_min

/-- Number of `calculate_content_height` evaluations the loop of
`find_optimal_font_size` performs; mirrors `findLoop`'s control flow. -/
def findLoopProbes (resolve : ℕ → Option Font) (content : List Char)
    (max_width max_height : ℚ) : ℕ → ℕ → ℕ → ℕ
  | 0, _, _ => 0
  | fuel+1, low, high =>
    if high < low then 0
    else
      match calculate_content_height resolve content ((low + high) / 2) max_width with
      | none => 1
      | some h =>
        if h ≤ max_height then
          1 + findLoopProbes resolve content max_width max_height fuel ((low + high) / 2 + 1) high
        else
          1 + findLoopProbes resolve content max_width max_height fuel low ((low + high) / 2 - 1)

/-- Probe count of one `find_optimal_font_size` call. -/
def find_optimal_probes (resolve : ℕ → Option Font) (content : List Char)
    (max_width max_height : ℚ) : ℕ :=
  findLoopProbes resolve content max_width max_height 10
    content_font_size_min content_font_size_max

/-! `draw_wrapped_text` (`src/main.py` lines 150-172): wraps, then draws each
line centered, advancing the y cursor by `font.getbbox(line)[3] +
line_spacing` per line, and returns the final cursor. -/

/-- One text-draw call recorded by the compositor model. -/
structure DrawOp where
  x : ℤ
  y : ℚ
  line : List Char
  deriving DecidableEq

/-- The drawing loop of `draw_wrapped_text`: emits one `DrawOp` per line and
returns the final y cursor. -/
def drawLinesAux (font : Font) (line_spacing : ℚ) : List (List Char) → ℚ → List DrawOp × ℚ
  | [], y => ([], y)
  | l :: ls, y =>
    let x : ℤ := ⌊((canvas_width : ℚ) - font.width l) / 2⌋
    let rest := drawLinesAux font line_spacing ls (y + font.bbox3 l + line_spacing)
    (⟨x, y, l⟩ :: rest.1, rest.2)

/-- `draw_wrapped_text(draw, text, position, font, max_width, line_spacing)`:
returns the recorded draw calls and the returned y cursor. -/
def draw_wrapped_text (font : Font) (text : List Char) (pos_y : ℚ)
    (max_width line_spacing : ℚ) : List DrawOp × ℚ :=
  drawLinesAux font line_spacing (wrapDraw font max_width (pySplit text) []) pos_y

/-! The body-layout slice of `generate_image` (`src/main.py` lines 196-220):
the y cursor after the title block, the reserved budget for body text, and
the body font size chosen against it. -/

/-- A validated post record. -/
structure Post where
  title : List Char
  content : List Char
  post_id : List Char
  image : List Char
  deriving DecidableEq

/-- The string `f"Post ID: {post['post_id']}"`. -/
def post_id_text (p : Post) : List Char := "Post ID: ".data ++ p.post_id

/-- `max_content_height` as computed in `generate_image`: canvas height minus
the cursor after the title block (drawn at spacing 10) and the title-content
gap, minus the post-id block height and its gap. -/
def body_budget (title_font postid_font : Font) (p : Post) : ℚ :=
  let y0 : ℚ := (image_top_margin : ℚ) + (image_height_cfg : ℚ) + (spacing_image_title : ℚ)
  let y1 := (draw_wrapped_text title_font p.title y0 max_content_width_cfg 10).2
  let y2 := y1 + (spacing_title_content : ℚ)
  let pid_h := postid_font.bbox3 (post_id_text p) - postid_font.bbox1 (post_id_text p)
  ((canvas_height : ℚ) - y2) - (pid_h + (spacing_content_postid : ℚ))

/-- The body font size `generate_image` chooses for a post. -/
def body_font_size (title_font postid_font : Font) (resolve : ℕ → Option Font)
    (p : Post) : Option ℕ :=
  find_optimal_font_size resolve p.content max_content_width_cfg
    (body_budget title_font postid_font p)

/-! `load_posts` (`src/main.py` lines 67-88) and the batch loop of `main`
(lines 326-347). -/

/-- The required fields of a post record, in the order `required_fields`
checks them. -/
inductive ReqField
  | title
  | content
  | post_id
  | image
  deriving DecidableEq

/-- A raw JSON post record: each required field present or absent. -/
structure RawPost where
  title : Option (List Char)
  content : Option (List Char)
  post_id : Option (List Char)
  image : Option (List Char)
  deriving DecidableEq

/-- The error `load_posts` raises: `ValueError(f"Post {i+1} missing required
field: {field}")`, as structured data. -/
inductive LoadError
  | missingField (post_number : ℕ) (field : ReqField)
  deriving DecidableEq

/-- `censor_text` (`src/main.py` line 64): the identity pass-through. -/
def censor_text (text : List Char) : List Char := text

/-- The per-post body of the validation loop in `load_posts`: first missing
field (in `required_fields` order) raises; otherwise title and content pass
through `censor_text`. -/
def validate_post (p : RawPost) : Except ReqField Post :=
  match p.title with
  | none => .error .title
  | some t =>
    match p.content with
    | none => .error .content
    | some c =>
      match p.post_id with
      | none => .error .post_id
      | some pid =>
        match p.image with
        | none => .error .image
        | some img =>
          .ok { title := censor_text t, content := censor_text c, post_id := pid, image := img }

/-- The validation loop of `load_posts`, carrying the 0-based `enumerate`
index; the first invalid post aborts with `Post {i+1} missing required
field`. -/
def load_posts_aux : ℕ → List RawPost → Except LoadError (List Post)
  | _, [] => .ok []
  | i, p :: ps =>
    match validate_post p with
    | .error f => .error (.missingField (i + 1) f)
    | .ok post =>
      match load_posts_aux (i + 1) ps with
      | .error e => .error e
      | .ok rest => .ok (post :: rest)

/-- `load_posts`: validates every record, first failure aborts the load. -/
def load_posts (raw : List RawPost) : Except LoadError (List Post) :=
  load_posts_aux 0 raw

/-- The batch loop of `main`: load first, then render each post, counting
successes; a render failure (modelled by `renderOk p = false`) is caught
per post and the loop continues. -/
def main_batch (raw : List RawPost) (renderOk : Post → Bool) : Except LoadError ℕ :=
  match load_posts raw with
  | .error e => .error e
  | .ok posts => .ok (posts.countP renderOk)

/-- A length-measuring font used for concrete counterexamples and witnesses:
width of a string is its character count, ascent 8, descent 2, bounding-box
bottom 10. -/
def lenFontQ : Font :=
  { width := fun l => (l.length : ℚ), ascent := 8, descent := 2,
    bbox1 := fun _ => 0, bbox3 := fun _ => 10 }

/-- A font family whose line height grows linearly with the requested size
(ascent = size, descent = 0), with size-independent widths. -/
def growFont (s : ℕ) : Font :=
  { width := fun l => (l.length : ℚ), ascent := s, descent := 0,
    bbox1 := fun _ => 0, bbox3 := fun _ => 10 }

/-- A resolver that always succeeds, yielding `growFont`. -/
def growResolve : ℕ → Option Font := fun s => some (growFont s)

/-- A font family with very tall lines (ascent = 100 * size), used to build a
post whose body cannot fit its budget at any configured size. -/
def bigFont (s : ℕ) : Font :=
  { width := fun l => (l.length : ℚ), ascent := 100 * s, descent := 0,
    bbox1 := fun _ => 0, bbox3 := fun _ => 10 }

/-- A resolver that always succeeds, yielding `bigFont`. -/
def bigResolve : ℕ → Option Font := fun s => some (bigFont s)

/-- A small concrete post for counterexamples. -/
def post0 : Post :=
  { title := ['t'], content := ['c', 'c'], post_id := ['p'], image := ['i'] }

/-- What the optimizer's result must satisfy, given the estimated heights
`H` and budget `maxH`: in the configured range, an upper bound on every
fitting size, fitting whenever anything fits, and the degrade-to-minimum
default. -/
def OptimalResult (H : ℕ → ℚ) (maxH : ℚ) (b : ℕ) : Prop :=
  20 ≤ b ∧ b ≤ 40 ∧
  (∀ s, 20 ≤ s → s ≤ 40 → H s ≤ maxH → s ≤ b) ∧
  ((∃ s, 20 ≤ s ∧ s ≤ 40 ∧ H s ≤ maxH) → H b ≤ maxH) ∧
  ((∀ s, 20 ≤ s → s ≤ 40 → ¬ H s ≤ maxH) → b = 20)

/-- A fully-populated raw post record. -/
def rawGood : RawPost :=
  { title := some ['a'], content := some ['b'], post_id := some ['c'], image := some ['d'] }

/-- A raw post record missing its `title` field. -/
def rawNoTitle : RawPost :=
  { title := none, content := some ['b'], post_id := some ['c'], image := some ['d'] }

/-- A raw post record missing its `content` field. -/
def rawNoContent : RawPost :=
  { title := some ['a'], content := none, post_id := some ['c'], image := some ['d'] }

/-! Lemmas about `joinSp`, `pySplit` and `pyStrip`. -/

theorem joinSp_cons_cons (w x : List Char) (ws : List (List Char)) :
    joinSp (w :: x :: ws) = w ++ ' ' :: joinSp (x :: ws) := rfl

theorem joinSp_append_single :
    ∀ (ws : List (List Char)) (w : List Char),
      joinSp (ws ++ [w]) = if ws = [] then w else joinSp ws ++ ' ' :: w
  | [], w => by simp [joinSp]
  | [x], w => by simp [joinSp]
  | x :: y :: ys, w => by
    have ih := joinSp_append_single (y :: ys) w
    simp only [List.cons_append, joinSp_cons_cons] at ih ⊢
    rw [ih]
    simp

theorem joinSp_cons_eq_append (w : List Char) (ws : List (List Char)) :
    ∃ t, joinSp (w :: ws) = w ++ t := by
  cases ws with
  | nil => exact ⟨[], by simp [joinSp]⟩
  | cons x xs => exact ⟨' ' :: joinSp (x :: xs), rfl⟩

theorem joinSp_head_not_ws (w : List Char) (ws : List (List Char)) (hw : CleanWord w) :
    ∃ c t, joinSp (w :: ws) = c :: t ∧ c.isWhitespace = false := by
  obtain ⟨t, ht⟩ := joinSp_cons_eq_append w ws
  obtain ⟨hne, hcs⟩ := hw
  obtain ⟨c, w', rfl⟩ : ∃ c w', w = c :: w' := by
    cases w with
    | nil => exact absurd rfl hne
    | cons c w' => exact ⟨c, w', rfl⟩
  exact ⟨c, w' ++ t, by rw [ht]; rfl, hcs c (List.mem_cons_self c w')⟩

theorem joinSp_reverse_head_not_ws :
    ∀ (ws : List (List Char)), ws ≠ [] → (∀ w ∈ ws, CleanWord w) →
      ∃ c t, (joinSp ws).reverse = c :: t ∧ c.isWhitespace = false := by
  intro ws
  induction ws using List.reverseRecOn with
  | nil => intro h; exact absurd rfl h
  | append_singleton ys w _ =>
    intro _ hclean
    have hw : CleanWord w := hclean w (by simp)
    obtain ⟨hne, hcs⟩ := hw
    have hrev : w.reverse ≠ [] := by simpa [List.reverse_eq_nil_iff] using hne
    obtain ⟨c, t, hct⟩ : ∃ c t, w.reverse = c :: t := by
      cases hr : w.reverse with
      | nil => exact absurd hr hrev
      | cons c t => exact ⟨c, t, rfl⟩
    have hcmem : c ∈ w := by
      have : c ∈ w.reverse := by rw [hct]; exact List.mem_cons_self c t
      exact List.mem_reverse.mp this
    rw [joinSp_append_single]
    by_cases hys : ys = []
    · subst hys
      simp only [if_pos rfl]
      exact ⟨c, t, hct, hcs c hcmem⟩
    · rw [if_neg hys]
      refine ⟨c, t ++ ' ' :: (joinSp ys).reverse, ?_, hcs c hcmem⟩
      rw [List.reverse_append, List.reverse_cons]
      rw [hct]
      simp

theorem dropWhile_ws_eq_self (s : List Char)
    (h : ∀ c t, s = c :: t → c.isWhitespace = false) :
    s.dropWhile Char.isWhitespace = s := by
  cases s with
  | nil => rfl
  | cons c t => rw [List.dropWhile_cons, h c t rfl]; simp

theorem pyStrip_eq_self (s : List Char)
    (h1 : ∀ c t, s = c :: t → c.isWhitespace = false)
    (h2 : ∀ c t, s.reverse = c :: t → c.isWhitespace = false) :
    pyStrip s = s := by
  unfold pyStrip
  rw [dropWhile_ws_eq_self s h1, dropWhile_ws_eq_self s.reverse h2, List.reverse_reverse]

/-- The tentative line `f"{line} {word}".strip()` of `draw_wrapped_text` equals
the `' '.join` of the word-group form, for clean words. -/
theorem pyStrip_join_step (cur : List (List Char)) (w : List Char)
    (hcur : ∀ v ∈ cur, CleanWord v) (hw : CleanWord w) :
    pyStrip (joinSp cur ++ ' ' :: w) = joinSp (cur ++ [w]) := by
  rw [joinSp_append_single]
  by_cases hc : cur = []
  · subst hc
    rw [if_pos rfl]
    show pyStrip (' ' :: w) = w
    unfold pyStrip
    obtain ⟨hne, hcs⟩ := hw
    rw [List.dropWhile_cons, if_pos (by decide : (' ').isWhitespace = true)]
    rw [dropWhile_ws_eq_self w (fun c t hct => hcs c (hct ▸ List.mem_cons_self c t))]
    rw [dropWhile_ws_eq_self w.reverse (fun c t hct => hcs c
      (List.mem_reverse.mp (hct ▸ List.mem_cons_self c t)))]
    exact List.reverse_reverse w
  · rw [if_neg hc]
    apply pyStrip_eq_self
    · intro c t hct
      obtain ⟨v, vs, hvvs⟩ : ∃ v vs, cur = v :: vs := by
        cases cur with
        | nil => exact absurd rfl hc
        | cons v vs => exact ⟨v, vs, rfl⟩
      obtain ⟨c', t', hc't', hws⟩ := joinSp_head_not_ws v vs (hcur v (hvvs ▸ List.mem_cons_self v vs))
      rw [hvvs, hc't', List.cons_append] at hct
      obtain ⟨rfl, -⟩ := List.cons.injEq .. ▸ hct
      exact hws
    · intro c t hct
      obtain ⟨hne, hcs⟩ := hw
      rw [List.reverse_append, List.reverse_cons] at hct
      obtain ⟨c', t', hct' ⟩ : ∃ c' t', w.reverse = c' :: t' := by
        cases hr : w.reverse with
        | nil => exact absurd (List.reverse_eq_nil_iff.mp hr) hne
        | cons c' t' => exact ⟨c', t', rfl⟩
      rw [hct', List.append_assoc, List.cons_append] at hct
      obtain ⟨rfl, -⟩ := List.cons.injEq .. ▸ hct
      exact hcs c' (List.mem_reverse.mp (hct' ▸ List.mem_cons_self c' t'))

theorem splitAux_word :
    ∀ (w cs cur : List Char), (∀ c ∈ w, c.isWhitespace = false) →
      splitAux (w ++ cs) cur = splitAux cs (w.reverse ++ cur)
  | [], cs, cur, _ => by simp
  | c :: w', cs, cur, h => by
    have hc : c.isWhitespace = false := h c (List.mem_cons_self c w')
    have ih := splitAux_word w' cs (c :: cur) (fun x hx => h x (List.mem_cons_of_mem c hx))
    show splitAux (c :: (w' ++ cs)) cur = splitAux cs ((c :: w').reverse ++ cur)
    simp only [splitAux, hc, Bool.false_eq_true, ite_false]
    rw [ih, List.reverse_cons, List.append_assoc, List.singleton_append]

theorem split_joinSp :
    ∀ (ws : List (List Char)), (∀ w ∈ ws, CleanWord w) → pySplit (joinSp ws) = ws
  | [], _ => rfl
  | [w], h => by
    obtain ⟨hne, hcs⟩ := h w (List.mem_cons_self w [])
    show splitAux (joinSp [w]) [] = [w]
    have : joinSp [w] = w ++ [] := by simp [joinSp]
    rw [this, splitAux_word w [] [] hcs]
    simp [splitAux, List.reverse_eq_nil_iff, hne]
  | w :: x :: ys, h => by
    obtain ⟨hne, hcs⟩ := h w (List.mem_cons_self w (x :: ys))
    have ih := split_joinSp (x :: ys) (fun v hv => h v (List.mem_cons_of_mem w hv))
    show splitAux (joinSp (w :: x :: ys)) [] = w :: x :: ys
    rw [joinSp_cons_cons, splitAux_word w (' ' :: joinSp (x :: ys)) [] hcs]
    have hwr : w.reverse ++ [] ≠ [] := by simpa [List.reverse_eq_nil_iff] using hne
    simp only [splitAux, (by decide : (' ').isWhitespace = true), if_pos, ite_true, if_neg hwr]
    rw [List.append_nil, List.reverse_reverse]
    exact congrArg (w :: ·) ih

theorem splitAux_clean :
    ∀ (cs cur : List Char), (∀ c ∈ cur, c.isWhitespace = false) →
      ∀ w ∈ splitAux cs cur, CleanWord w
  | [], cur, hcur => by
    intro w hw
    by_cases hc : cur = []
    · simp [splitAux, hc] at hw
    · simp only [splitAux, if_neg hc, List.mem_singleton] at hw
      subst hw
      exact ⟨by simpa [List.reverse_eq_nil_iff] using hc,
        fun c hc' => hcur c (List.mem_reverse.mp hc')⟩
  | c :: cs, cur, hcur => by
    intro w hw
    by_cases hws : c.isWhitespace
    · by_cases hc : cur = []
      · simp only [splitAux, hws, ite_true, hc] at hw
        exact splitAux_clean cs [] (by simp) w (by simpa using hw)
      · simp only [splitAux, hws, ite_true, if_neg hc, List.mem_cons] at hw
        rcases hw with rfl | hw
        · exact ⟨by simpa [List.reverse_eq_nil_iff] using hc,
            fun x hx => hcur x (List.mem_reverse.mp hx)⟩
        · exact splitAux_clean cs [] (by simp) w hw
    · simp only [splitAux, hws, ite_false] at hw
      refine splitAux_clean cs (c :: cur) ?_ w hw
      intro x hx
      rcases List.mem_cons.mp hx with rfl | hx
      · exact Bool.eq_false_iff.mpr hws
      · exact hcur x hx

theorem pySplit_clean (s : List Char) : ∀ w ∈ pySplit s, CleanWord w :=
  splitAux_clean s [] (by simp)

/-! Lemmas about the greedy wrap of `calculate_content_height`. -/

theorem wrapCalc_flatten (font : Font) (maxW : ℚ) :
    ∀ (ws cur : List (List Char)), (wrapCalc font maxW ws cur).flatten = cur ++ ws
  | [], cur => by by_cases h : cur = [] <;> simp [wrapCalc, h]
  | w :: ws, cur => by
    by_cases h : font.width (joinSp (cur ++ [w])) ≤ maxW
    · simp only [wrapCalc, if_pos h]
      rw [wrapCalc_flatten font maxW ws (cur ++ [w]), List.append_assoc, List.singleton_append]
    · simp only [wrapCalc, if_neg h, List.flatten_cons]
      rw [wrapCalc_flatten font maxW ws [w], List.singleton_append]

theorem wrapCalc_lineOK (font : Font) (maxW : ℚ) :
    ∀ (ws cur : List (List Char)),
      (font.width (joinSp cur) ≤ maxW ∨ cur.length = 1 ∨ cur = []) →
      ∀ g ∈ wrapCalc font maxW ws cur,
        font.width (joinSp g) ≤ maxW ∨ g.length = 1 ∨ g = []
  | [], cur, hcur => by
    intro g hg
    by_cases h : cur = []
    · simp [wrapCalc, h] at hg
    · simp only [wrapCalc, if_neg h, List.mem_singleton] at hg
      subst hg
      exact hcur
  | w :: ws, cur, hcur => by
    intro g hg
    by_cases h : font.width (joinSp (cur ++ [w])) ≤ maxW
    · simp only [wrapCalc, if_pos h] at hg
      exact wrapCalc_lineOK font maxW ws (cur ++ [w]) (Or.inl h) g hg
    · simp only [wrapCalc, if_neg h, List.mem_cons] at hg
      rcases hg with rfl | hg
      · exact hcur
      · exact wrapCalc_lineOK font maxW ws [w] (Or.inr (Or.inl rfl)) g hg

theorem wrapCalc_groups_clean (font : Font) (maxW : ℚ) (text : List Char) :
    ∀ g ∈ wrapCalc font maxW (pySplit text) [], ∀ v ∈ g, CleanWord v := by
  intro g hg v hv
  have hmem : v ∈ (wrapCalc font maxW (pySplit text) []).flatten :=
    List.mem_flatten.mpr ⟨g, hg, hv⟩
  rw [wrapCalc_flatten, List.nil_append] at hmem
  exact pySplit_clean text v hmem

/-- Claim C1, as stated, is false: with `maxWidth = -1` and text `"a"`, the
wrap emits a leading empty line (the `else` branch appends the empty
`current_line`), whose measured width 0 exceeds -1 and which has zero words,
not one. -/
theorem wrap_claim_counterexample :
    ¬ ((∀ l ∈ wrapLines lenFontQ (-1) ['a'],
          lenFontQ.width l ≤ (-1 : ℚ) ∨ (pySplit l).length = 1)
        ∧ (wrapLines lenFontQ (-1) ['a']).flatMap pySplit = pySplit ['a']) := by
  intro h
  have := h.1 [] (by decide)
  revert this
  decide

/-- Claim C1 (amended): every line the greedy wrap emits has measured width
at most `maxWidth`, or consists of exactly one word, or is an empty line
(emitted when a word overflows the empty line buffer); and concatenating the
words of all emitted lines, in order, reproduces the whitespace-split word
sequence of the input exactly. -/
theorem wrap_lines_correct (font : Font) (maxW : ℚ) (text : List Char) :
    (∀ l ∈ wrapLines font maxW text,
        font.width l ≤ maxW ∨ (pySplit l).length = 1 ∨ l = [])
    ∧ (wrapLines font maxW text).flatMap pySplit = pySplit text := by
  constructor
  · intro l hl
    obtain ⟨g, hg, rfl⟩ := List.mem_map.mp hl
    have hclean : ∀ v ∈ g, CleanWord v := wrapCalc_groups_clean font maxW text g hg
    rcases wrapCalc_lineOK font maxW (pySplit text) [] (Or.inr (Or.inr rfl)) g hg with h | h | h
    · exact Or.inl h
    · refine Or.inr (Or.inl ?_)
      rw [split_joinSp g hclean, h]
    · subst h
      exact Or.inr (Or.inr rfl)
  · unfold wrapLines
    rw [List.flatMap_map, List.flatMap_def]
    have hmap : (wrapCalc font maxW (pySplit text) []).map (fun g => pySplit (joinSp g))
        = (wrapCalc font maxW (pySplit text) []).map id := by
      apply List.map_congr_left
      intro g hg
      exact split_joinSp g (wrapCalc_groups_clean font maxW text g hg)
    rw [hmap, List.map_id, wrapCalc_flatten, List.nil_append]

/-- Claim C4, as stated, is false: for the single word `"ab"` with measured
width 2 over `maxWidth = 1`, the wrap emits two lines, a leading empty line
and then the word, not just the word. -/
theorem single_word_claim_counterexample :
    wrapLines lenFontQ 1 ['a', 'b'] ≠ [['a', 'b']] := by decide

/-- Claim C4 (amended): for an input consisting of a single word whose
measured width alone exceeds `maxWidth`, the word-wrap emits an empty line
followed by that word as its own (overflowing) line — still with no
character-level splitting. -/
theorem single_overflowing_word (font : Font) (maxW : ℚ) (w : List Char)
    (hw : CleanWord w) (hover : maxW < font.width w) :
    wrapLines font maxW w = [[], w] := by
  have hsplit : pySplit w = [w] := by
    have := split_joinSp [w] (by simpa using hw)
    simpa [joinSp] using this
  unfold wrapLines
  rw [hsplit]
  have hcond : ¬ font.width (joinSp ([] ++ [w])) ≤ maxW := by
    simp only [List.nil_append, joinSp]
    exact not_le.mpr hover
  simp only [wrapCalc, if_neg hcond]
  simp [wrapCalc, joinSp]

/-- Witness for `single_overflowing_word` at a concrete overflowing word. -/
theorem single_overflowing_word_witness :
    wrapLines lenFontQ 1 ['a', 'b'] = [[], ['a', 'b']] :=
  single_overflowing_word lenFontQ 1 ['a', 'b'] (by constructor <;> decide) (by decide)

/-! Equivalence of the two wrap loops (`calculate_content_height` vs
`draw_wrapped_text`). -/

theorem joinSp_ne_nil (ws : List (List Char)) (h : ws ≠ [])
    (hclean : ∀ w ∈ ws, CleanWord w) : joinSp ws ≠ [] := by
  obtain ⟨v, vs, rfl⟩ : ∃ v vs, ws = v :: vs := by
    cases ws with
    | nil => exact absurd rfl h
    | cons v vs => exact ⟨v, vs, rfl⟩
  obtain ⟨c, t, heq, -⟩ := joinSp_head_not_ws v vs (hclean v (List.mem_cons_self v vs))
  rw [heq]
  simp

theorem wrapDraw_eq_wrapCalc (font : Font) (maxW : ℚ) :
    ∀ (ws cur : List (List Char)), (∀ w ∈ ws, CleanWord w) → (∀ v ∈ cur, CleanWord v) →
      wrapDraw font maxW ws (joinSp cur) = (wrapCalc font maxW ws cur).map joinSp
  | [], cur, _, hcur => by
    by_cases h : cur = []
    · subst h
      simp [wrapDraw, wrapCalc, joinSp]
    · have hne : joinSp cur ≠ [] := joinSp_ne_nil cur h hcur
      simp only [wrapDraw, wrapCalc, if_neg h, if_neg hne, List.map_cons, List.map_nil]
  | w :: ws, cur, hws, hcur => by
    have hw : CleanWord w := hws w (List.mem_cons_self w ws)
    have hws' : ∀ v ∈ ws, CleanWord v := fun v hv => hws v (List.mem_cons_of_mem w hv)
    have hstep := pyStrip_join_step cur w hcur hw
    have happ : ∀ v ∈ cur ++ [w], CleanWord v := by
      intro v hv
      rcases List.mem_append.mp hv with hv | hv
      · exact hcur v hv
      · rw [List.mem_singleton.mp hv]; exact hw
    by_cases h : font.width (joinSp (cur ++ [w])) ≤ maxW
    · have hcond : font.width (pyStrip (joinSp cur ++ ' ' :: w)) ≤ maxW := by rwa [hstep]
      simp only [wrapDraw, wrapCalc, if_pos hcond, if_pos h, hstep]
      exact wrapDraw_eq_wrapCalc font maxW ws (cur ++ [w]) hws' happ
    · have hcond : ¬ font.width (pyStrip (joinSp cur ++ ' ' :: w)) ≤ maxW := by rwa [hstep]
      simp only [wrapDraw, wrapCalc, if_neg hcond, if_neg h, List.map_cons]
      refine congrArg (joinSp cur :: ·) ?_
      have := wrapDraw_eq_wrapCalc font maxW ws [w]
        hws' (by intro v hv; rw [List.mem_singleton.mp hv]; exact hw)
      simpa [joinSp] using this

/-- Claim C9: for every text, font and maxWidth, the greedy word-wrap inside
`calculate_content_height` and the one inside `draw_wrapped_text` produce
exactly the same ordered sequence of lines. -/
theorem wrap_loops_agree (font : Font) (maxW : ℚ) (text : List Char) :
    wrapDraw font maxW (pySplit text) [] = wrapLines font maxW text := by
  have h := wrapDraw_eq_wrapCalc font maxW (pySplit text) [] (pySplit_clean text) (by simp)
  simpa [joinSp, wrapLines] using h

/-- Claim C5: with the resolved font, `calculate_content_height` returns 0
for zero wrapped lines, and otherwise `n * lineHeight + (n - 1) *
(lineHeight * 0.2)` where `lineHeight = ascent + descent` and `n` is the
number of wrapped lines. -/
theorem calc_height_formula (resolve : ℕ → Option Font) (content : List Char)
    (font_size : ℕ) (max_width : ℚ) (font : Font) (hres : resolve font_size = some font) :
    calculate_content_height resolve content font_size max_width =
      some (if (wrapLines font max_width content).length = 0 then 0
        else ((wrapLines font max_width content).length : ℚ)
            * ((font.ascent : ℚ) + (font.descent : ℚ))
          + (((wrapLines font max_width content).length : ℚ) - 1)
            * (((font.ascent : ℚ) + (font.descent : ℚ)) * content_line_spacing_cfg)) := by
  unfold calculate_content_height
  rw [hres]
  simp only [wrapLines, List.length_map]
  split <;> rfl

/-- Witness for `calc_height_formula`: a two-word text at width 980 wraps to
one line of the concrete font, so the estimate is `1 * 10 + 0 * 2 = 10`. -/
theorem calc_height_formula_witness :
    calculate_content_height (fun _ => some lenFontQ) ['h', 'i'] 10 980 = some 10 := by
  rw [calc_height_formula (fun _ => some lenFontQ) ['h', 'i'] 10 980 lenFontQ rfl]
  have hlines : wrapLines lenFontQ 980 ['h', 'i'] = [['h', 'i']] := by decide
  rw [hlines]
  norm_num [lenFontQ, content_line_spacing_cfg]

/-! The drawing loop of `draw_wrapped_text`. -/

theorem drawLinesAux_snd (font : Font) (sp : ℚ) :
    ∀ (ls : List (List Char)) (y : ℚ),
      (drawLinesAux font sp ls y).2 = y + (ls.map (fun l => font.bbox3 l + sp)).sum
  | [], y => by simp [drawLinesAux]
  | l :: ls, y => by
    simp only [drawLinesAux, List.map_cons, List.sum_cons]
    rw [drawLinesAux_snd font sp ls]
    ring

/-- Claim C10: for text with no words `draw_wrapped_text` draws nothing and
returns the starting y unchanged; for text with at least one word the
returned cursor is the starting y plus, for each emitted line, that line's
bounding-box bottom plus `line_spacing` (spacing applied after the final
line too). -/
theorem draw_wrapped_text_cursor (font : Font) (text : List Char)
    (pos_y max_width line_spacing : ℚ) :
    (pySplit text = [] → draw_wrapped_text font text pos_y max_width line_spacing = ([], pos_y))
    ∧ (pySplit text ≠ [] →
        (draw_wrapped_text font text pos_y max_width line_spacing).2 =
          pos_y + ((wrapDraw font max_width (pySplit text) []).map
            (fun l => font.bbox3 l + line_spacing)).sum) := by
  constructor
  · intro h
    unfold draw_wrapped_text
    rw [h]
    simp [wrapDraw, drawLinesAux]
  · intro _
    unfold draw_wrapped_text
    rw [drawLinesAux_snd]

/-- Witness for `draw_wrapped_text_cursor`: a one-line text starting at y = 7
with spacing 5 ends at `7 + (10 + 5) = 22`, and an all-whitespace text
returns (no draws, starting y). -/
theorem draw_wrapped_text_cursor_witness :
    (draw_wrapped_text lenFontQ ['h', 'i'] 7 980 5).2 = 22
    ∧ draw_wrapped_text lenFontQ [' '] 7 980 5 = ([], 7) := by
  constructor
  · rw [(draw_wrapped_text_cursor lenFontQ ['h', 'i'] 7 980 5).2 (by decide)]
    have hlines : wrapDraw lenFontQ 980 (pySplit ['h', 'i']) [] = [['h', 'i']] := by decide
    rw [hlines]
    norm_num [lenFontQ]
  · exact (draw_wrapped_text_cursor lenFontQ [' '] 7 980 5).1 (by decide)

/-! Correctness of the bounded binary search in `find_optimal_font_size`. -/

/-- Exit analysis of the search loop: once `high < low`, the loop invariants
force `best` to satisfy `OptimalResult`. -/
theorem optimal_exit (H : ℕ → ℚ) (maxH : ℚ) (low high best : ℕ)
    (hhi : high ≤ 40) (hlh : low ≤ high + 1) (hexit : high < low)
    (hnofit : ∀ s, 20 ≤ s → s ≤ 40 → high < s → ¬ H s ≤ maxH)
    (hbest : low = 20 ∧ best = 20 ∨ 20 < low ∧ best = low - 1 ∧ H best ≤ maxH) :
    OptimalResult H maxH best := by
  rcases hbest with ⟨hl, rfl⟩ | ⟨hl, hb, hfitb⟩
  · refine ⟨le_refl 20, by norm_num, ?_, ?_, fun _ => rfl⟩
    · intro s h1 h2 hf
      exact absurd hf (hnofit s h1 h2 (by omega))
    · rintro ⟨s, h1, h2, hf⟩
      exact absurd hf (hnofit s h1 h2 (by omega))
  · have h20b : 20 ≤ best := by omega
    have h40b : best ≤ 40 := by omega
    refine ⟨h20b, h40b, ?_, fun _ => hfitb, ?_⟩
    · intro s h1 h2 hf
      by_contra hgt
      exact hnofit s h1 h2 (by omega) hf
    · intro hno
      exact absurd hfitb (hno best h20b h40b)

/-- Main loop invariant proof for `findLoop`: with resolving probes and
monotone estimated heights, enough fuel makes the loop return a size
satisfying `OptimalResult`. -/
theorem findLoop_correct (resolve : ℕ → Option Font) (content : List Char)
    (maxW maxH : ℚ) (H : ℕ → ℚ)
    (hH : ∀ s, 20 ≤ s → s ≤ 40 → calculate_content_height resolve content s maxW = some (H s))
    (hmono : ∀ s t, 20 ≤ s → s ≤ t → t ≤ 40 → H s ≤ H t) :
    ∀ (fuel low high best : ℕ), 20 ≤ low → high ≤ 40 → low ≤ high + 1 →
      high + 1 - low < 2 ^ fuel →
      (∀ s, 20 ≤ s → s ≤ 40 → high < s → ¬ H s ≤ maxH) →
      (low = 20 ∧ best = 20 ∨ 20 < low ∧ best = low - 1 ∧ H best ≤ maxH) →
      ∃ b, findLoop resolve content maxW maxH fuel low high best = some b
        ∧ OptimalResult H maxH b := by
  intro fuel
  induction fuel with
  | zero =>
    intro low high best h20 h40 hlh hL hnofit hbest
    have hexit : high < low := by omega
    exact ⟨best, rfl, optimal_exit H maxH low high best h40 hlh hexit hnofit hbest⟩
  | succ f ih =>
    intro low high best h20 h40 hlh hL hnofit hbest
    by_cases hexit : high < low
    · refine ⟨best, ?_, optimal_exit H maxH low high best h40 hlh hexit hnofit hbest⟩
      simp [findLoop, if_pos hexit]
    · push_neg at hexit
      have hm1 : 20 ≤ (low + high) / 2 := by omega
      have hm2 : (low + high) / 2 ≤ 40 := by omega
      have hcalc := hH ((low + high) / 2) hm1 hm2
      have hpow : (2 : ℕ) ^ (f + 1) = 2 * 2 ^ f := by rw [pow_succ]; ring
      rw [hpow] at hL
      by_cases hfit : H ((low + high) / 2) ≤ maxH
      · obtain ⟨b, hb, hopt⟩ := ih ((low + high) / 2 + 1) high ((low + high) / 2)
          (by omega) h40 (by omega) (by omega) hnofit
          (Or.inr ⟨by omega, by omega, hfit⟩)
        refine ⟨b, ?_, hopt⟩
        simp only [findLoop, if_neg (not_lt.mpr hexit)]
        rw [hcalc]
        simp only [if_pos hfit]
        exact hb
      · have hnofit' : ∀ s, 20 ≤ s → s ≤ 40 → (low + high) / 2 - 1 < s → ¬ H s ≤ maxH := by
          intro s h1 h2 hs
          by_cases hsh : high < s
          · exact hnofit s h1 h2 hsh
          · push_neg at hsh
            intro hcon
            exact hfit (le_trans (hmono ((low + high) / 2) s hm1 (by omega) h2) hcon)
        obtain ⟨b, hb, hopt⟩ := ih low ((low + high) / 2 - 1) best
          h20 (by omega) (by omega) (by omega) hnofit' hbest
        refine ⟨b, ?_, hopt⟩
        simp only [findLoop, if_neg (not_lt.mpr hexit)]
        rw [hcalc]
        simp only [if_neg hfit]
        exact hb

/-- Without monotonicity: resolving probes keep the loop inside the size
range and it always yields a value. -/
theorem findLoop_in_range (resolve : ℕ → Option Font) (content : List Char)
    (maxW maxH : ℚ)
    (hsome : ∀ s, 20 ≤ s → s ≤ 40 → (calculate_content_height resolve content s maxW).isSome) :
    ∀ (fuel low high best : ℕ), 20 ≤ low → high ≤ 40 → 20 ≤ best → best ≤ 40 →
      ∃ b, findLoop resolve content maxW maxH fuel low high best = some b
        ∧ 20 ≤ b ∧ b ≤ 40 := by
  intro fuel
  induction fuel with
  | zero =>
    intro low high best _ _ hb1 hb2
    exact ⟨best, rfl, hb1, hb2⟩
  | succ f ih =>
    intro low high best h20 h40 hb1 hb2
    by_cases hexit : high < low
    · exact ⟨best, by simp [findLoop, if_pos hexit], hb1, hb2⟩
    · push_neg at hexit
      have hs := hsome ((low + high) / 2) (by omega) (by omega)
      obtain ⟨v, hv⟩ := Option.isSome_iff_exists.mp hs
      by_cases hfit : v ≤ maxH
      · obtain ⟨b, hb, hr⟩ := ih ((low + high) / 2 + 1) high ((low + high) / 2)
          (by omega) h40 (by omega) (by omega)
        refine ⟨b, ?_, hr⟩
        simp only [findLoop, if_neg (not_lt.mpr hexit)]
        rw [hv]
        simp only [if_pos hfit]
        exact hb
      · obtain ⟨b, hb, hr⟩ := ih low ((low + high) / 2 - 1) best h20 (by omega) hb1 hb2
        refine ⟨b, ?_, hr⟩
        simp only [findLoop, if_neg (not_lt.mpr hexit)]
        rw [hv]
        simp only [if_neg hfit]
        exact hb

/-- The loop performs at most `fuel` height estimations. -/
theorem findLoopProbes_le (resolve : ℕ → Option Font) (content : List Char)
    (maxW maxH : ℚ) :
    ∀ (fuel low high : ℕ), findLoopProbes resolve content maxW maxH fuel low high ≤ fuel := by
  intro fuel
  induction fuel with
  | zero => intro low high; exact le_refl 0
  | succ f ih =>
    intro low high
    by_cases hexit : high < low
    · simp [findLoopProbes, if_pos hexit]
    · simp only [findLoopProbes, if_neg hexit]
      split
      · omega
      · split
        · have := ih ((low + high) / 2 + 1) high
          omega
        · have := ih low ((low + high) / 2 - 1)
          omega

/-- When no size in the range fits, no probe ever fits, so `best` is never
updated and the initial value is returned. -/
theorem findLoop_nofit (resolve : ℕ → Option Font) (content : List Char)
    (maxW maxH : ℚ) (H : ℕ → ℚ)
    (hH : ∀ s, 20 ≤ s → s ≤ 40 → calculate_content_height resolve content s maxW = some (H s))
    (hnofit : ∀ s, 20 ≤ s → s ≤ 40 → ¬ H s ≤ maxH) :
    ∀ (fuel low high best : ℕ), 20 ≤ low → high ≤ 40 →
      findLoop resolve content maxW maxH fuel low high best = some best := by
  intro fuel
  induction fuel with
  | zero => intro low high best _ _; rfl
  | succ f ih =>
    intro low high best h20 h40
    by_cases hexit : high < low
    · simp [findLoop, if_pos hexit]
    · push_neg at hexit
      have hm1 : 20 ≤ (low + high) / 2 := by omega
      have hm2 : (low + high) / 2 ≤ 40 := by omega
      simp only [findLoop, if_neg (not_lt.mpr hexit)]
      rw [hH ((low + high) / 2) hm1 hm2]
      simp only [if_neg (hnofit ((low + high) / 2) hm1 hm2)]
      exact ih low ((low + high) / 2 - 1) best h20 (by omega)

/-- Helper: `calculate_content_height` under a successful font resolution. -/
theorem calc_height_resolved (resolve : ℕ → Option Font) (content : List Char)
    (font_size : ℕ) (max_width : ℚ) (font : Font) (hres : resolve font_size = some font) :
    calculate_content_height resolve content font_size max_width =
      (if (wrapCalc font max_width (pySplit content) []).length = 0 then some 0
        else some (((wrapCalc font max_width (pySplit content) []).length : ℚ)
            * ((font.ascent : ℚ) + (font.descent : ℚ))
          + (((wrapCalc font max_width (pySplit content) []).length : ℚ) - 1)
            * (((font.ascent : ℚ) + (font.descent : ℚ)) * content_line_spacing_cfg))) := by
  unfold calculate_content_height
  rw [hres]

/-- Claim C2: under resolving probes and heights non-decreasing in the size,
`find_optimal_font_size` returns the largest size in the configured range
whose estimated height fits the budget, and the minimum size when no size
fits. -/
theorem find_optimal_font_size_largest_fit (resolve : ℕ → Option Font)
    (content : List Char) (maxW maxH : ℚ) (H : ℕ → ℚ)
    (hH : ∀ s, content_font_size_min ≤ s → s ≤ content_font_size_max →
      calculate_content_height resolve content s maxW = some (H s))
    (hmono : ∀ s t, content_font_size_min ≤ s → s ≤ t → t ≤ content_font_size_max →
      H s ≤ H t) :
    ∃ b, find_optimal_font_size resolve content maxW maxH = some b
      ∧ content_font_size_min ≤ b ∧ b ≤ content_font_size_max
      ∧ ((∃ s, content_font_size_min ≤ s ∧ s ≤ content_font_size_max ∧ H s ≤ maxH) →
          H b ≤ maxH ∧ ∀ s, content_font_size_min ≤ s → s ≤ content_font_size_max →
            H s ≤ maxH → s ≤ b)
      ∧ ((∀ s, content_font_size_min ≤ s → s ≤ content_font_size_max → ¬ H s ≤ maxH) →
          b = content_font_size_min) := by
  obtain ⟨b, hb, h1, h2, hmax, hex, hnone⟩ :=
    findLoop_correct resolve content maxW maxH H hH hmono 10 20 40 20
      (le_refl 20) (le_refl 40) (by omega) (by norm_num)
      (fun s _ hs2 hs3 => absurd hs2 (not_le.mpr hs3))
      (Or.inl ⟨rfl, rfl⟩)
  exact ⟨b, hb, h1, h2,
    fun hfit => ⟨hex hfit, fun s hs1 hs2 hf => hmax s hs1 hs2 hf⟩, hnone⟩

/-- Witness for `find_optimal_font_size_largest_fit`: with heights equal to
the font size and budget 33, the optimizer returns exactly 33. -/
theorem find_optimal_font_size_largest_fit_witness :
    find_optimal_font_size growResolve ['h', 'i'] 980 33 = some 33 := by
  have hH : ∀ s, content_font_size_min ≤ s → s ≤ content_font_size_max →
      calculate_content_height growResolve ['h', 'i'] s 980 = some ((s : ℕ) : ℚ) := by
    intro s _ _
    rw [calc_height_resolved growResolve ['h', 'i'] s 980 (growFont s) rfl]
    have hsplit : pySplit ['h', 'i'] = [['h', 'i']] := by decide
    rw [hsplit]
    have hwrap : wrapCalc (growFont s) 980 [['h', 'i']] [] = [[['h', 'i']]] := by
      simp only [wrapCalc]
      rw [if_pos (by norm_num [growFont, joinSp])]
      simp [wrapCalc]
    rw [hwrap]
    norm_num [growFont, content_line_spacing_cfg]
  have hmono : ∀ s t, content_font_size_min ≤ s → s ≤ t → t ≤ content_font_size_max →
      ((s : ℕ) : ℚ) ≤ ((t : ℕ) : ℚ) := fun s t _ hst _ => by exact_mod_cast hst
  obtain ⟨b, hb, h1, h2, hfits, -⟩ :=
    find_optimal_font_size_largest_fit growResolve ['h', 'i'] 980 33 (fun s => (s : ℚ))
      hH hmono
  obtain ⟨hble, hlargest⟩ := hfits ⟨33, by norm_num [content_font_size_min],
    by norm_num [content_font_size_max], by norm_num⟩
  have hb33 : b = 33 := by
    have hup : b ≤ 33 := by exact_mod_cast hble
    have hdown : 33 ≤ b := hlargest 33 (by norm_num [content_font_size_min])
      (by norm_num [content_font_size_max]) (by norm_num)
    omega
  rw [hb33] at hb
  exact hb

/-- Claim C6: when every probed height estimation succeeds, the optimizer
terminates with a size in the configured 20..40 range and evaluates
`calculate_content_height` at most 10 times. -/
theorem find_optimal_terminates_in_range (resolve : ℕ → Option Font)
    (content : List Char) (maxW maxH : ℚ)
    (hsome : ∀ s, content_font_size_min ≤ s → s ≤ content_font_size_max →
      (calculate_content_height resolve content s maxW).isSome) :
    (∃ b, find_optimal_font_size resolve content maxW maxH = some b
      ∧ content_font_size_min ≤ b ∧ b ≤ content_font_size_max)
    ∧ find_optimal_probes resolve content maxW maxH ≤ 10 := by
  constructor
  · exact findLoop_in_range resolve content maxW maxH hsome 10 20 40 20
      (le_refl 20) (le_refl 40) (le_refl 20) (by omega)
  · exact findLoopProbes_le resolve content maxW maxH 10 20 40

/-- Witness for `find_optimal_terminates_in_range` on a concrete resolver,
text and an impossible (negative) budget. -/
theorem find_optimal_terminates_in_range_witness :
    (∃ b, find_optimal_font_size growResolve ['h', 'i'] 980 (-1) = some b
      ∧ content_font_size_min ≤ b ∧ b ≤ content_font_size_max)
    ∧ find_optimal_probes growResolve ['h', 'i'] 980 (-1) ≤ 10 := by
  refine find_optimal_terminates_in_range growResolve ['h', 'i'] 980 (-1) ?_
  intro s _ _
  rw [calc_height_resolved growResolve ['h', 'i'] s 980 (growFont s) rfl]
  split <;> rfl

/-- Claim C7, as stated, is false: when font resolution fails, the error
propagates out of `find_optimal_font_size` (there is no handler around the
`calculate_content_height` call), so the optimizer does not yield a size. -/
theorem find_optimal_resolution_failure_counterexample :
    find_optimal_font_size (fun _ => none) ['h', 'i'] 980 100 = none := rfl

/-- Claim C7 (amended): whenever every probed font size resolves,
`find_optimal_font_size` yields a size in the configured range and degrades
to the minimum size when nothing fits; but a font-resolution failure at a
probed size propagates as an error. -/
theorem find_optimal_never_fails_when_resolved (resolve : ℕ → Option Font)
    (content : List Char) (maxW maxH : ℚ) (H : ℕ → ℚ)
    (hH : ∀ s, content_font_size_min ≤ s → s ≤ content_font_size_max →
      calculate_content_height resolve content s maxW = some (H s)) :
    ∃ b, find_optimal_font_size resolve content maxW maxH = some b
      ∧ content_font_size_min ≤ b ∧ b ≤ content_font_size_max
      ∧ ((∀ s, content_font_size_min ≤ s → s ≤ content_font_size_max → ¬ H s ≤ maxH) →
          b = content_font_size_min) := by
  obtain ⟨b, hb, h1, h2⟩ := findLoop_in_range resolve content maxW maxH
    (fun s hs1 hs2 => by rw [hH s hs1 hs2]; rfl) 10 20 40 20
    (le_refl 20) (le_refl 40) (le_refl 20) (by omega)
  refine ⟨b, hb, h1, h2, ?_⟩
  intro hnofit
  have h20 := findLoop_nofit resolve content maxW maxH H hH hnofit 10 20 40 20
    (le_refl 20) (le_refl 40)
  have : some b = some 20 := hb ▸ h20 ▸ rfl
  exact Option.some_inj.mp this.symm ▸ rfl

/-- Witness for `find_optimal_never_fails_when_resolved`: with a negative
budget nothing fits and the optimizer degrades to the minimum size 20. -/
theorem find_optimal_never_fails_when_resolved_witness :
    find_optimal_font_size growResolve ['h', 'i'] 980 (-1) = some 20 := by
  have hH : ∀ s, content_font_size_min ≤ s → s ≤ content_font_size_max →
      calculate_content_height growResolve ['h', 'i'] s 980 = some ((s : ℕ) : ℚ) := by
    intro s _ _
    rw [calc_height_resolved growResolve ['h', 'i'] s 980 (growFont s) rfl]
    have hsplit : pySplit ['h', 'i'] = [['h', 'i']] := by decide
    rw [hsplit]
    have hwrap : wrapCalc (growFont s) 980 [['h', 'i']] [] = [[['h', 'i']]] := by
      simp only [wrapCalc]
      rw [if_pos (by norm_num [growFont, joinSp])]
      simp [wrapCalc]
    rw [hwrap]
    norm_num [growFont, content_line_spacing_cfg]
  obtain ⟨b, hb, h1, -, hdeg⟩ :=
    find_optimal_never_fails_when_resolved growResolve ['h', 'i'] 980 (-1)
      (fun s => (s : ℚ)) hH
  have hb20 : b = content_font_size_min := by
    apply hdeg
    intro s hs1 _ hcon
    have : (20 : ℚ) ≤ (s : ℚ) := by exact_mod_cast hs1
    linarith
  rw [hb20] at hb
  exact hb

/-- Claim C3 (amended): whenever some size in the configured range has
estimated height within the budget `generate_image` reserves for body text
(probes resolving, heights monotone in size), the size the optimizer picks
has estimated height within that budget; when no size fits, the optimizer
degrades to the minimum size and the block may overflow the budget. -/
theorem body_block_fits_when_possible (title_font postid_font : Font)
    (resolve : ℕ → Option Font) (p : Post) (H : ℕ → ℚ)
    (hH : ∀ s, content_font_size_min ≤ s → s ≤ content_font_size_max →
      calculate_content_height resolve p.content s max_content_width_cfg = some (H s))
    (hmono : ∀ s t, content_font_size_min ≤ s → s ≤ t → t ≤ content_font_size_max →
      H s ≤ H t)
    (hfit : ∃ s, content_font_size_min ≤ s ∧ s ≤ content_font_size_max ∧
      H s ≤ body_budget title_font postid_font p) :
    ∃ sz, body_font_size title_font postid_font resolve p = some sz
      ∧ H sz ≤ body_budget title_font postid_font p := by
  obtain ⟨b, hb, -, -, -, hex, -⟩ :=
    findLoop_correct resolve p.content max_content_width_cfg
      (body_budget title_font postid_font p) H hH hmono 10 20 40 20
      (le_refl 20) (le_refl 40) (by omega) (by norm_num)
      (fun s _ hs2 hs3 => absurd hs2 (not_le.mpr hs3))
      (Or.inl ⟨rfl, rfl⟩)
  exact ⟨b, hb, hex hfit⟩

/-- Helper: the concrete budget `generate_image` reserves for `post0` with
the length-measuring fonts. -/
theorem body_budget_post0 : body_budget lenFontQ lenFontQ post0 = 1390 := by
  have hwrap : wrapDraw lenFontQ 980 (pySplit post0.title) [] = [['t']] := by decide
  have hdraw : ∀ y0 : ℚ, (draw_wrapped_text lenFontQ post0.title y0 980 10).2 = y0 + 20 := by
    intro y0
    unfold draw_wrapped_text
    rw [hwrap, drawLinesAux_snd]
    norm_num [lenFontQ]
  simp only [body_budget]
  rw [show max_content_width_cfg = (980 : ℚ) from rfl]
  rw [hdraw]
  norm_num [lenFontQ, post_id_text, canvas_height, image_top_margin, image_height_cfg,
    spacing_image_title, spacing_title_content, spacing_content_postid]

/-- Helper: estimated heights of `post0`'s two-character content under
`bigResolve`: one wrapped line of height `100 * size`. -/
theorem bigResolve_height (s : ℕ) :
    calculate_content_height bigResolve post0.content s max_content_width_cfg
      = some (100 * (s : ℚ)) := by
  rw [calc_height_resolved bigResolve post0.content s max_content_width_cfg (bigFont s) rfl]
  have hsplit : pySplit post0.content = [['c', 'c']] := by decide
  rw [hsplit]
  have hwrap : wrapCalc (bigFont s) max_content_width_cfg [['c', 'c']] [] = [[['c', 'c']]] := by
    simp only [wrapCalc]
    rw [if_pos (by norm_num [bigFont, joinSp, max_content_width_cfg])]
    simp [wrapCalc]
  rw [hwrap]
  push_cast [bigFont, content_line_spacing_cfg]
  norm_num

/-- Claim C3, as stated, is false: for `post0` under `bigResolve` no size in
the range fits the reserved budget of 1390, the optimizer degrades to the
minimum size 20, and the resulting body block's estimated height 2000
exceeds the budget it was computed against. -/
theorem body_budget_counterexample :
    body_font_size lenFontQ lenFontQ bigResolve post0 = some 20
    ∧ calculate_content_height bigResolve post0.content 20 max_content_width_cfg
        = some 2000
    ∧ ¬ ((2000 : ℚ) ≤ body_budget lenFontQ lenFontQ post0) := by
  refine ⟨?_, ?_, ?_⟩
  · unfold body_font_size find_optimal_font_size
    refine findLoop_nofit bigResolve post0.content max_content_width_cfg
      (body_budget lenFontQ lenFontQ post0) (fun s => 100 * (s : ℚ))
      (fun s _ _ => bigResolve_height s) ?_ 10 20 40 20 (le_refl 20) (le_refl 40)
    intro s hs1 _ hcon
    rw [body_budget_post0] at hcon
    have hcon2 : 100 * (s : ℚ) ≤ 1390 := hcon
    have : (20 : ℚ) ≤ (s : ℚ) := by exact_mod_cast hs1
    linarith
  · rw [bigResolve_height 20]
    norm_num
  · rw [body_budget_post0]
    norm_num

/-- Witness for `body_block_fits_when_possible`: with heights equal to the
size, every size fits `post0`'s budget of 1390, so the chosen size's
estimated height is within budget. -/
theorem body_block_fits_when_possible_witness :
    ∃ sz, body_font_size lenFontQ lenFontQ growResolve post0 = some sz
      ∧ ((sz : ℕ) : ℚ) ≤ body_budget lenFontQ lenFontQ post0 := by
  have hH : ∀ s, content_font_size_min ≤ s → s ≤ content_font_size_max →
      calculate_content_height growResolve post0.content s max_content_width_cfg
        = some ((s : ℕ) : ℚ) := by
    intro s _ _
    rw [calc_height_resolved growResolve post0.content s max_content_width_cfg
      (growFont s) rfl]
    have hsplit : pySplit post0.content = [['c', 'c']] := by decide
    rw [hsplit]
    have hwrap : wrapCalc (growFont s) max_content_width_cfg [['c', 'c']] []
        = [[['c', 'c']]] := by
      simp only [wrapCalc]
      rw [if_pos (by norm_num [growFont, joinSp, max_content_width_cfg])]
      simp [wrapCalc]
    rw [hwrap]
    norm_num [growFont, content_line_spacing_cfg]
  refine body_block_fits_when_possible lenFontQ lenFontQ growResolve post0
    (fun s => (s : ℚ)) hH (fun s t _ hst _ => show (s : ℚ) ≤ (t : ℚ) by exact_mod_cast hst) ?_
  refine ⟨20, le_refl 20, by norm_num [content_font_size_min, content_font_size_max], ?_⟩
  rw [body_budget_post0]
  norm_num

/-! `load_posts` error behaviour and the batch loop. -/

/-- The first invalid record aborts `load_posts_aux` with its 1-based post
number and the first missing field. -/
theorem load_posts_aux_error :
    ∀ (raw : List RawPost) (k i : ℕ) (p : RawPost) (f : ReqField),
      raw.get? i = some p → validate_post p = .error f →
      (∀ j q, j < i → raw.get? j = some q → ∃ post, validate_post q = .ok post) →
      load_posts_aux k raw = .error (.missingField (k + i + 1) f)
  | [], k, i, p, f, hget, _, _ => by simp at hget
  | r :: rs, k, 0, p, f, hget, hbad, _ => by
    have hp : r = p := by simpa using hget
    subst hp
    simp only [load_posts_aux, hbad]
  | r :: rs, k, i + 1, p, f, hget, hbad, hprior => by
    obtain ⟨post, hpost⟩ := hprior 0 r (by omega) rfl
    have hget' : rs.get? i = some p := by simpa using hget
    have hprior' : ∀ j q, j < i → rs.get? j = some q →
        ∃ post, validate_post q = .ok post := by
      intro j q hj hq
      exact hprior (j + 1) q (by omega) (by simpa using hq)
    have ih := load_posts_aux_error rs (k + 1) i p f hget' hbad hprior'
    simp only [load_posts_aux, hpost, ih]
    have : k + 1 + i + 1 = k + (i + 1) + 1 := by omega
    rw [this]

/-- Claim C8, as stated, is false: a batch whose second post is missing its
`title` aborts wholesale at load time with that post's error — the valid
first post, which renders fine on its own, is never processed. -/
theorem batch_isolation_counterexample :
    main_batch [rawGood] (fun _ => true) = .ok 1
    ∧ main_batch [rawGood, rawNoTitle] (fun _ => true)
        = .error (.missingField 2 .title) := ⟨rfl, rfl⟩

/-- Claim C8 (amended): a post missing a required field is detected at load
time, before any rendering (the outcome is independent of the renderer), but
the resulting error aborts the entire batch: `load_posts` raises on the
first invalid post and no post of the batch is processed. -/
theorem missing_field_aborts_whole_batch (raw : List RawPost) (i : ℕ)
    (p : RawPost) (f : ReqField)
    (hget : raw.get? i = some p) (hbad : validate_post p = .error f)
    (hprior : ∀ j q, j < i → raw.get? j = some q → ∃ post, validate_post q = .ok post) :
    ∀ renderOk : Post → Bool,
      main_batch raw renderOk = .error (.missingField (i + 1) f) := by
  intro renderOk
  have hload : load_posts raw = .error (.missingField (i + 1) f) := by
    have := load_posts_aux_error raw 0 i p f hget hbad hprior
    simpa [load_posts] using this
  unfold main_batch
  rw [hload]

/-- Witness for `missing_field_aborts_whole_batch`: a batch whose second post
is missing `content` aborts with that error no matter the renderer. -/
theorem missing_field_aborts_whole_batch_witness :
    main_batch [rawGood, rawNoContent] (fun _ => false)
      = .error (.missingField 2 .content) := by
  refine missing_field_aborts_whole_batch [rawGood, rawNoContent] 1 rawNoContent
    .content rfl rfl ?_ (fun _ => false)
  intro j q hj hq
  have hj0 : j = 0 := by omega
  subst hj0
  have hq' : q = rawGood := by simpa using hq.symm
  subst hq'
  exact ⟨_, rfl⟩
